import Mathlib

/-!
# Email sender connection pool (package emailclient)

A shallow embedding of `connectpool.go`, `config.go`, `smtpsender.go` and the
send loops of `emailclient.go`.

Modelling conventions
* An `EmailSender` interface value is `Option Nat`: `none` is the nil interface,
  `some n` is the sender object number `n`.
* A Go `error` is `Option String`: `none` is nil.
* `time.Time` and `time.Duration` are integers (nanoseconds); the zero `time.Time` is `0`.
* The buffered channel `senderCache` is the list of its buffered elements (head is
  the oldest) plus a closed flag; its capacity is `poolConfig.MaxCap`, as allocated
  by `newEmailSenderPool`.
* `openedConnNum` is an atomic int32: every update is wrapped by `toInt32`.
* A method is one atomic step. Its outcome is `Res.ret` (it returned), `Res.panic`
  (a Go run-time panic) or `Res.blocked` (it cannot return while no other goroutine
  changes the pool), together with the pool as the step leaves it. The warming
  goroutine of `initPool` is also given in two steps (`Interleaved`), split at its
  factory call.
* Results of calls into the network (the factory, `Dial`, `SendMsg`) are arguments.
-/

namespace EmailClient

/-! ## Basic types -/

/-- An `EmailSender` interface value; `none` is the nil interface. -/
abbrev EmailSender := Option Nat

/-- Conversion to `int32` and int32 wrap-around arithmetic. -/
def toInt32 (x : Int) : Int := (x + 2147483648) % 4294967296 - 2147483648

/-- Outcome of one atomic step. -/
inductive Res (α : Type) where
  | ret (a : α)
  | panic
  | blocked
deriving DecidableEq, Repr

/-- Pool settings of `config.go` (the unused `Ping` callback is left out). -/
structure PoolCofig where
  InitialCap : Int
  MaxCap : Int
  MaxIdle : Int
  IdleTimeout : Int
deriving DecidableEq, Repr

/-- Connection data of `config.go`. -/
structure ConnectConfig where
  Host : String
  PortStr : String
  Username : String
  Password : String
  Encryption : String
  EmailProtocol : String
  SendRetryNum : Int
deriving DecidableEq, Repr

/-- Connection data of `smtpsender.go`. -/
structure SmtpConnectConfig where
  Host : String
  PortStr : String
  Username : String
  Password : String
  Encryption : String
  SendRetryNum : Int
deriving DecidableEq, Repr

/-- The protocol name constant of `config.go`. -/
def SMTP_PROTOCOL : String := "smtp"

/-- A value of the function type `SenderFactory` (which function it is); what a call
returns is given separately as a `FactoryResult`. -/
inductive SenderFactory where
  | SmtpSenderFactory
  | other (n : Nat)
deriving DecidableEq, Repr

/-- What one call of a factory returns: the pair `(EmailSender, error)`. -/
structure FactoryResult where
  sender : EmailSender
  err : Option String
deriving DecidableEq, Repr

/-- The wrapper `timeoutEmailSender` of `connectpool.go`. -/
structure timeoutEmailSender where
  sender : EmailSender
  lastUseTime : Int
deriving DecidableEq, Repr

/-- The struct `emailSenderPoolImp`. `chanClosed` is the closed flag of the channel
`senderCache`; `closeLog` records every `Close()` call made on a sender, in order. -/
structure Pool where
  poolConfig : PoolCofig
  connConfig : Option SmtpConnectConfig
  senderCache : List timeoutEmailSender
  chanClosed : Bool
  factory : Option SenderFactory
  openedConnNum : Int
  running : Bool
  closeLog : List Nat
deriving DecidableEq, Repr

/-! ## config.go -/

/-- Go `buildProtocolConnectConfig`: the SMTP settings, or nil for any other protocol. -/
def buildProtocolConnectConfig (config : ConnectConfig) : Option SmtpConnectConfig :=
  if config.EmailProtocol = SMTP_PROTOCOL then
    some { Host := config.Host, PortStr := config.PortStr, Username := config.Username,
           Password := config.Password, Encryption := config.Encryption,
           SendRetryNum := config.SendRetryNum }
  else none

/-- Go `newEmailSenderPool`. `make(chan _, MaxCap)` panics on a negative size. -/
def newEmailSenderPool (poolConfig : PoolCofig) (factory : Option SenderFactory)
    (connConfig : ConnectConfig) : Res Pool :=
  if poolConfig.MaxCap < 0 then .panic
  else .ret { poolConfig := poolConfig
              connConfig := buildProtocolConnectConfig connConfig
              senderCache := []
              chanClosed := false
              factory := factory
              openedConnNum := 0
              running := false
              closeLog := [] }

/-! ## connectpool.go: the pool -/

/-- Channel send `this.senderCache <- w`: panics on a closed channel, cannot proceed
on a full buffer (or an unbuffered channel, nobody receiving), else appends. -/
def chanSend (p : Pool) (w : timeoutEmailSender) : Res Unit × Pool :=
  if p.chanClosed then (.panic, p)
  else if (p.senderCache.length : Int) < p.poolConfig.MaxCap then
    (.ret (), { p with senderCache := p.senderCache ++ [w] })
  else (.blocked, p)

/-- Go `CloseConn`: `sender.Close()` (a method call on the nil interface panics),
then `openedConnNum.Add(-1)`. The error value of `Close` is not modelled. -/
def CloseConn (p : Pool) (sender : EmailSender) : Res Unit × Pool :=
  match sender with
  | none => (.panic, p)
  | some n => (.ret (), { p with closeLog := p.closeLog ++ [n],
                                 openedConnNum := toInt32 (p.openedConnNum - 1) })

/-- Go `initPool`, the synchronous part: one factory call, one enqueue, one increment.
The warming goroutine it starts is `warmUpIter`. -/
def initPool (p : Pool) (fr : FactoryResult) (now : Int) : Res (Option String) × Pool :=
  let p0 := { p with running := true }
  match p0.factory with
  | none => (.panic, p0)
  | some _ =>
    if fr.err.isSome || fr.sender.isNone then (.ret fr.err, p0)
    else
      match chanSend p0 ⟨fr.sender, now⟩ with
      | (.ret _, p1) => (.ret none, { p1 with openedConnNum := toInt32 (p1.openedConnNum + 1) })
      | (.panic, p1) => (.panic, p1)
      | (.blocked, p1) => (.blocked, p1)

/-- One iteration of the loop of the warming goroutine of `initPool`. The returned
flag is false when the loop breaks and true when it goes on. -/
def warmUpIter (p : Pool) (fr : FactoryResult) (now : Int) : Res Bool × Pool :=
  if p.openedConnNum ≥ toInt32 p.poolConfig.InitialCap then (.ret false, p)
  else
    match p.factory with
    | none => (.panic, p)
    | some _ =>
      if fr.err.isSome && fr.sender.isNone then (.ret true, p)
      else
        match chanSend p ⟨fr.sender, now⟩ with
        | (.ret _, p1) => (.ret true, { p1 with openedConnNum := toInt32 (p1.openedConnNum + 1) })
        | (.panic, p1) => (.panic, p1)
        | (.blocked, p1) => (.blocked, p1)

/-- The part of one iteration of the warming goroutine that follows the loop test:
the factory call (it takes no lock) has returned `fr`; then the skip test, the channel
send and `openedConnNum.Add(1)`. -/
def warmUpAfterDial (p : Pool) (fr : FactoryResult) (now : Int) : Res Bool × Pool :=
  match p.factory with
  | none => (.panic, p)
  | some _ =>
    if fr.err.isSome && fr.sender.isNone then (.ret true, p)
    else
      match chanSend p ⟨fr.sender, now⟩ with
      | (.ret _, p1) => (.ret true, { p1 with openedConnNum := toInt32 (p1.openedConnNum + 1) })
      | (.panic, p1) => (.panic, p1)
      | (.blocked, p1) => (.blocked, p1)

/-- What `GetSender` returns: the pair `(sender, err)`; `fromCache` records that the
sender was received from `senderCache`. -/
structure GetRet where
  sender : EmailSender
  err : Option String
  fromCache : Bool
deriving DecidableEq, Repr

/-- The loop of `GetSender`. The list argument is the channel buffer still to be
received from (it equals `p.senderCache` at every call). -/
def GetSender.loop (fr : FactoryResult) (now : Int) :
    List timeoutEmailSender → Pool → Res GetRet × Pool
  | w :: rest, p =>
    let p1 := { p with senderCache := rest }
    if w.lastUseTime + p.poolConfig.IdleTimeout < now then
      match CloseConn p1 w.sender with
      | (.ret _, p2) => GetSender.loop fr now rest p2
      | (_, p2) => (.panic, p2)
    else (.ret ⟨w.sender, none, true⟩, p1)
  | [], p =>
    if p.chanClosed then
      -- a receive from a closed, drained channel yields the zero value at once
      if (0 : Int) + p.poolConfig.IdleTimeout < now then
        match CloseConn p none with
        | (.ret _, p2) => (.blocked, p2) -- the loop would start over; CloseConn of nil panics
        | (_, p2) => (.panic, p2)
      else (.ret ⟨none, none, true⟩, p)
    else if p.openedConnNum ≥ toInt32 p.poolConfig.MaxCap then
      -- the two-second wait times out and the loop starts over, without end
      (.blocked, p)
    else
      let p1 := { p with openedConnNum := toInt32 (p.openedConnNum + 1) }
      match p1.factory with
      | none => (.panic, p1)
      | some _ =>
        if fr.err.isSome || fr.sender.isNone then
          (.ret ⟨none, fr.err, false⟩, { p1 with openedConnNum := toInt32 (p1.openedConnNum - 1) })
        else (.ret ⟨fr.sender, none, false⟩, p1)

/-- Go `GetSender`. -/
def GetSender (p : Pool) (fr : FactoryResult) (now : Int) : Res GetRet × Pool :=
  if !p.running then (.ret ⟨none, some "conn pool is closed!", false⟩, p)
  else GetSender.loop fr now p.senderCache p

/-- Go `PutSender`: after the `CloseConn` of the not-running branch the method goes on
to the channel send. -/
def PutSender (p : Pool) (sender : EmailSender) (now : Int) : Res Unit × Pool :=
  let r := if !p.running then CloseConn p sender else (.ret (), p)
  match r with
  | (.ret _, p1) => chanSend p1 ⟨sender, now⟩
  | (.panic, p1) => (.panic, p1)
  | (.blocked, p1) => (.blocked, p1)

/-- The draining loop of `closePool`; the list argument is the channel buffer. -/
def closePool.loop : List timeoutEmailSender → Pool → Res Unit × Pool
  | w :: rest, p =>
    match CloseConn { p with senderCache := rest } w.sender with
    | (.ret _, p2) => closePool.loop rest p2
    | (_, p2) => (.panic, p2)
  | [], p =>
    if p.chanClosed then
      -- the receive yields the zero value with ok == false; CloseConn is still called
      match CloseConn p none with
      | (.ret _, p2) => (.ret (), p2)
      | (_, p2) => (.panic, p2)
    else (.ret (), p)

/-- Go `closePool`: clear `running`, drain, then `close(this.senderCache)`, which
panics on a channel that is closed already. -/
def closePool (p : Pool) : Res (Option String) × Pool :=
  let p0 := { p with running := false }
  match closePool.loop p0.senderCache p0 with
  | (.ret _, p1) =>
    if p1.chanClosed then (.panic, p1)
    else (.ret none, { p1 with chanClosed := true })
  | (.panic, p1) => (.panic, p1)
  | (.blocked, p1) => (.blocked, p1)

/-- The inner `for i := 0; i < int(openedConnNum); i++` loop of the goroutine of
`cleanIdleConn`, from index `i` on. `fuel` bounds the number of iterations; `none`
means the fuel ran out. -/
def cleanIdleConn.loop (now : Int) : Nat → Nat → Pool → Option (Res Unit × Pool)
  | fuel, i, p =>
    if (i : Int) < p.openedConnNum then
      match fuel with
      | 0 => none
      | fuel + 1 =>
        match p.senderCache with
        | [] =>
          if p.chanClosed then
            -- zero value received from the closed channel
            if (0 : Int) + p.poolConfig.IdleTimeout < now then
              match CloseConn p none with
              | (.ret _, p2) => cleanIdleConn.loop now fuel (i + 1) p2
              | (_, p2) => some (.panic, p2)
            else
              match chanSend p ⟨none, 0⟩ with
              | (.ret _, p2) => cleanIdleConn.loop now fuel (i + 1) p2
              | r => some r
          else some (.blocked, p)
        | w :: rest =>
          let p1 := { p with senderCache := rest }
          if w.lastUseTime + p.poolConfig.IdleTimeout < now then
            match CloseConn p1 w.sender with
            | (.ret _, p2) => cleanIdleConn.loop now fuel (i + 1) p2
            | (_, p2) => some (.panic, p2)
          else
            match chanSend p1 w with
            | (.ret _, p2) => cleanIdleConn.loop now fuel (i + 1) p2
            | r => some r
    else some (.ret (), p)

/-- One pass of the reaper of `cleanIdleConn` (one run of the inner loop). -/
def cleanIdleConnPass (p : Pool) (now : Int) : Option (Res Unit × Pool) :=
  cleanIdleConn.loop now p.openedConnNum.toNat 0 p

/-! ## Callers of one pool -/

/-- A pool together with the sender values its callers hold: the values `GetSender`
handed out (received from `senderCache`, or newly created) that were not yet given to
`PutSender` or `CloseConn`. -/
structure World where
  pool : Pool
  held : List EmailSender
deriving DecidableEq, Repr

/-- The operations on a pool after `initPool`, with the values they take from outside
(the result of the factory call they may make, the clock, the caller's sender). -/
inductive Op where
  | getSender (fr : FactoryResult) (now : Int)
  | putSender (s : EmailSender) (now : Int)
  | closeConn (s : EmailSender)
  | warmUp (fr : FactoryResult) (now : Int)
  | reaper (now : Int)
  | closePool
deriving DecidableEq, Repr

/-- Whether `GetSender` handed a sender value to its caller. -/
def GetRet.handedOut (r : GetRet) : Bool :=
  r.fromCache || (r.err.isNone && r.sender.isSome)

/-- One operation as an atomic step. `none`: the operation panics (the process
ends), or a caller passes a sender it does not hold. A blocked operation leaves the
pool as it is at the point where it waits (a blocked `PutSender` keeps its sender). -/
def step (w : World) : Op → Option World
  | .getSender fr now =>
    match GetSender w.pool fr now with
    | (.ret r, p) => some ⟨p, if r.handedOut then r.sender :: w.held else w.held⟩
    | (.blocked, p) => some ⟨p, w.held⟩
    | (.panic, _) => none
  | .putSender s now =>
    if s ∈ w.held then
      match PutSender w.pool s now with
      | (.ret _, p) => some ⟨p, w.held.erase s⟩
      | (.blocked, p) => some ⟨p, w.held⟩
      | (.panic, _) => none
    else none
  | .closeConn s =>
    if s ∈ w.held then
      match CloseConn w.pool s with
      | (.ret _, p) => some ⟨p, w.held.erase s⟩
      | _ => none
    else none
  | .warmUp fr now =>
    match warmUpIter w.pool fr now with
    | (.ret _, p) => some ⟨p, w.held⟩
    | (.blocked, p) => some ⟨p, w.held⟩
    | (.panic, _) => none
  | .reaper now =>
    match cleanIdleConnPass w.pool now with
    | some (.ret _, p) => some ⟨p, w.held⟩
    | some (.blocked, p) => some ⟨p, w.held⟩
    | _ => none
  | .closePool =>
    match closePool w.pool with
    | (.ret _, p) => some ⟨p, w.held⟩
    | _ => none

/-- A sequence of operations, one after the other. -/
def run : World → List Op → Option World
  | w, [] => some w
  | w, op :: ops =>
    match step w op with
    | some w1 => run w1 ops
    | none => none

/-- A freshly constructed pool on which `initPool` has returned (with or without an
error), nobody holding a sender yet. The second component is what `initPool` returned. -/
def started (poolConfig : PoolCofig) (factory : Option SenderFactory)
    (connConfig : ConnectConfig) (fr : FactoryResult) (now : Int) :
    Option (World × Option String) :=
  match newEmailSenderPool poolConfig factory connConfig with
  | .ret p =>
    match initPool p fr now with
    | (.ret e, p1) => some (⟨p1, []⟩, e)
    | _ => none
  | _ => none

/-- Whether an operation is `closePool`. -/
def Op.isClosePool : Op → Bool
  | .closePool => true
  | _ => false

/-! ## The warming goroutine next to the callers -/

/-- A pool with its callers and the warming goroutine of `initPool`: `dialing` says
that the goroutine has passed its loop test `openedConnNum >= InitialCap` and is inside
the factory call. -/
structure Interleaved where
  world : World
  dialing : Bool
deriving DecidableEq, Repr

/-- The steps of the callers and of the warming goroutine: an operation of a caller (or
of the reaper, or `closePool`), the loop test of the warming goroutine, and the rest of
its iteration once the factory call has returned. -/
inductive IOp where
  | call (op : Op)
  | warmTest
  | warmDialed (fr : FactoryResult) (now : Int)
deriving DecidableEq, Repr

/-- One step. The warming goroutine runs only through `warmTest` and `warmDialed`;
between the two, other goroutines may step. `none`: the step is not possible here, or
it panics or cannot proceed (such a step is not followed further). -/
def istep (s : Interleaved) : IOp → Option Interleaved
  | .call (.warmUp _ _) => none
  | .call op =>
    match step s.world op with
    | some w => some ⟨w, s.dialing⟩
    | none => none
  | .warmTest =>
    if s.dialing then none
    else if s.world.pool.openedConnNum ≥ toInt32 s.world.pool.poolConfig.InitialCap then none
    else some ⟨s.world, true⟩
  | .warmDialed fr now =>
    if s.dialing then
      match warmUpAfterDial s.world.pool fr now with
      | (.ret _, p) => some ⟨⟨p, s.world.held⟩, false⟩
      | _ => none
    else none

/-- A sequence of steps. -/
def irun : Interleaved → List IOp → Option Interleaved
  | s, [] => some s
  | s, op :: ops =>
    match istep s op with
    | some s1 => irun s1 ops
    | none => none

/-! ## connectpool.go: the manager -/

/-- The struct `EmailSenderPoolManager`; the two Go maps are association lists. -/
structure EmailSenderPoolManager where
  poolConfig : PoolCofig
  connPools : List (String × Pool)
  senderFactory : List (String × SenderFactory)
deriving DecidableEq, Repr

/-- Go `NewEmailPoolManager`: no pools, one registered factory. -/
def NewEmailPoolManager (poolConfig : PoolCofig) : EmailSenderPoolManager :=
  { poolConfig := poolConfig
    connPools := []
    senderFactory := [(SMTP_PROTOCOL, SenderFactory.SmtpSenderFactory)] }

/-- The map key of `GetPool`: `fmt.Sprintf("%s:%s|%s|%s|%s", Host, PortStr, Username,
Password, EmailProtocol)`. -/
def GetPool.key (connConfig : ConnectConfig) : String :=
  connConfig.Host ++ ":" ++ connConfig.PortStr ++ "|" ++ connConfig.Username ++ "|" ++
    connConfig.Password ++ "|" ++ connConfig.EmailProtocol

/-- The credential tuple `(Host, PortStr, Username, Password, EmailProtocol)`. -/
def credentialTuple (c : ConnectConfig) : String × String × String × String × String :=
  (c.Host, c.PortStr, c.Username, c.Password, c.EmailProtocol)

/-- Go `GetPool`: what it returns (the pool and the error) and the manager afterwards.
A missing map entry of `senderFactory` is the nil function. -/
def GetPool (m : EmailSenderPoolManager) (connConfig : ConnectConfig) (fr : FactoryResult)
    (now : Int) : Res (Pool × Option String) × EmailSenderPoolManager :=
  let key := GetPool.key connConfig
  match m.connPools.lookup key with
  | some pool => (.ret (pool, none), m)
  | none =>
    let factory := m.senderFactory.lookup connConfig.EmailProtocol
    match newEmailSenderPool m.poolConfig factory connConfig with
    | .ret newPool =>
      match initPool newPool fr now with
      | (.ret (some err), p1) => (.ret (p1, some err), m)
      | (.ret none, p1) => (.ret (p1, none), { m with connPools := (key, p1) :: m.connPools })
      | (.panic, _) => (.panic, m)
      | (.blocked, _) => (.blocked, m)
    | _ => (.panic, m)

/-! ## smtpsender.go -/

/-- What one call of `d.Dial()` returns: the pair `(gomail.SendCloser, error)`. -/
structure DialResult where
  s : Option Nat
  err : Option String
deriving DecidableEq, Repr

/-- The struct `SmtpSender`. -/
structure SmtpSender where
  realSender : Option Nat
deriving DecidableEq, Repr

/-- What `SmtpSenderFactory` returns: the sender behind the returned pointer, the error,
and the number of `Dial` calls it made. -/
structure SmtpFactoryRet where
  sender : SmtpSender
  err : Option String
  dials : Nat
deriving DecidableEq, Repr

/-- Formatting of an error value with `%v`. -/
def fmtErr : Option String → String
  | none => "<nil>"
  | some e => e

/-- The loop `for i := 0; i < sendRetryNum; i++` of `SmtpSenderFactory`: `dial i` is
the result of the call number `i`, the first argument counts the iterations left, `cur`
holds the variables `s` and `err`. Returns them with the number of calls made. -/
def SmtpSenderFactory.loop (dial : Nat → DialResult) : Nat → Nat → DialResult → DialResult × Nat
  | 0, i, cur => (cur, i)
  | n + 1, i, _ =>
    let d := dial i
    if d.err.isSome then SmtpSenderFactory.loop dial n (i + 1) d
    else (d, i + 1)

/-- Go `SmtpSenderFactory`. -/
def SmtpSenderFactory (c : SmtpConnectConfig) (dial : Nat → DialResult) : SmtpFactoryRet :=
  let sendRetryNum : Int := if c.SendRetryNum ≤ 0 then 3 else c.SendRetryNum
  let r := SmtpSenderFactory.loop dial sendRetryNum.toNat 0 ⟨none, none⟩
  let sender : SmtpSender := ⟨r.1.s⟩
  if r.1.err.isSome || r.1.s.isNone then ⟨sender, some ("Dial fail, " ++ fmtErr r.1.err), r.2⟩
  else ⟨sender, none, r.2⟩

/-- The two outcomes of a dial: a connection and no error, or no connection and an error. -/
inductive DialOutcome where
  | ok (conn : Nat)
  | fail (err : String)
deriving DecidableEq, Repr

/-- The pair `Dial` returns for an outcome. -/
def DialOutcome.toResult : DialOutcome → DialResult
  | .ok conn => ⟨some conn, none⟩
  | .fail err => ⟨none, some err⟩

/-- The number of dial attempts the code allows for a configured `SendRetryNum`. -/
def dialBudget (sendRetryNum : Int) : Int :=
  if sendRetryNum ≤ 0 then 3 else sendRetryNum

/-! ## emailclient.go: the send loops -/

/-- What one loop iteration meets: the pair `GetSender` returns and the error of the
send on that sender (with the list of invalid addresses, for the group send). -/
structure Attempt where
  sender : EmailSender
  getErr : Option String
  sendErr : Option String
  invalidAddrsArr : List (List String)
deriving DecidableEq, Repr

/-- A call of a pool method made by a send loop. -/
inductive PoolCall where
  | GetSender
  | PutSender (s : EmailSender)
  | CloseConn (s : EmailSender)
deriving DecidableEq, Repr

/-- The loop `for i := 0; i < e.sendTryNum; i++` of `SendEmailNew`. The first argument
counts the iterations left, `err` is the variable `err`, `log` the pool calls so far.
A send on the nil sender panics. -/
def SendEmailNew.loop (attempt : Nat → Attempt) :
    Nat → Nat → Option String → List PoolCall → Res (Option String) × List PoolCall
  | 0, _, err, log => (.ret err, log)
  | n + 1, i, _, log =>
    let a := attempt i
    match a.getErr with
    | some e => SendEmailNew.loop attempt n (i + 1) (some e) (log ++ [.GetSender])
    | none =>
      match a.sender with
      | none => (.panic, log ++ [.GetSender])
      | some s =>
        match a.sendErr with
        | some e =>
          SendEmailNew.loop attempt n (i + 1) (some e) (log ++ [.GetSender, .CloseConn (some s)])
        | none => (.ret none, log ++ [.GetSender, .PutSender (some s)])

/-- The send loop of Go `SendEmailNew` (the message assembly before it does not touch
the pool): the returned error and the pool calls made. -/
def SendEmailNew (sendTryNum : Int) (attempt : Nat → Attempt) :
    Res (Option String) × List PoolCall :=
  SendEmailNew.loop attempt sendTryNum.toNat 0 none []

/-- The loop of `SendEmailByGroup`; `inv` is the variable `invalidAddrs`. -/
def SendEmailByGroup.loop (attempt : Nat → Attempt) :
    Nat → Nat → Option String → List String → List PoolCall →
      Res (List String × Option String) × List PoolCall
  | 0, _, err, inv, log => (.ret (inv, err), log)
  | n + 1, i, _, inv, log =>
    let a := attempt i
    match a.getErr with
    | some e => SendEmailByGroup.loop attempt n (i + 1) (some e) inv (log ++ [.GetSender])
    | none =>
      match a.sender with
      | none => (.panic, log ++ [.GetSender])
      | some s =>
        match a.sendErr with
        | some e =>
          SendEmailByGroup.loop attempt n (i + 1) (some e) inv
            (log ++ [.GetSender, .CloseConn (some s)])
        | none =>
          let inv1 := if a.invalidAddrsArr.length ≥ 1 then a.invalidAddrsArr.headD [] else inv
          (.ret (inv1, none), log ++ [.GetSender, .PutSender (some s)])

/-- The send loop of Go `SendEmailByGroup`: the returned pair and the pool calls made. -/
def SendEmailByGroup (sendTryNum : Int) (attempt : Nat → Attempt) :
    Res (List String × Option String) × List PoolCall :=
  SendEmailByGroup.loop attempt sendTryNum.toNat 0 none [] []

/-- The pair a pool receives from `SmtpSenderFactory`: the returned pointer `&sender`
(object number `ptr`) is never nil, the error is the one the factory built. -/
def SmtpSenderFactory.result (ptr : Nat) (c : SmtpConnectConfig) (dial : Nat → DialResult) :
    FactoryResult :=
  ⟨some ptr, (SmtpSenderFactory c dial).err⟩

/-! ## Sample data -/

/-- A sample pool configuration: two warm sessions, ceiling two, idle timeout 60. -/
def sampleCfg : PoolCofig := ⟨2, 2, 2, 60⟩

/-- A sample SMTP connection configuration. -/
def sampleConn : ConnectConfig := ⟨"mail.example.org", "25", "user", "secret", "", "smtp", 3⟩

/-- The sample pool right after a successful `initPool` at time 0 with sender 0. -/
def sampleStart : World :=
  ⟨⟨sampleCfg, buildProtocolConnectConfig sampleConn, [⟨some 0, 0⟩], false,
    some SenderFactory.SmtpSenderFactory, 1, true, []⟩, []⟩

/-- A sample run on the running pool: acquire, warm up, release, reap, acquire. -/
def sampleOps : List Op :=
  [.getSender ⟨some 9, none⟩ 5, .warmUp ⟨some 1, none⟩ 6, .putSender (some 0) 7, .reaper 100,
   .getSender ⟨some 2, none⟩ 101]

/-- The state after `sampleOps`: both buffered senders were reaped, sender 2 is held. -/
def sampleAfterOps : World :=
  ⟨⟨sampleCfg, buildProtocolConnectConfig sampleConn, [], false,
    some SenderFactory.SmtpSenderFactory, 1, true, [1, 0]⟩, [some 2]⟩

/-- The sample pool with sender 2 held by a caller, after `closePool`. -/
def sampleClosed : Pool :=
  ⟨sampleCfg, buildProtocolConnectConfig sampleConn, [], true,
    some SenderFactory.SmtpSenderFactory, 1, false, [1, 0]⟩

/-- A sample pool that is warming up: one session buffered, `InitialCap` two. -/
def sampleWarming : Pool :=
  ⟨sampleCfg, buildProtocolConnectConfig sampleConn, [⟨some 0, 0⟩], false,
    some SenderFactory.SmtpSenderFactory, 1, true, []⟩

/-- A network on which every dial fails. -/
def sampleDialDown : Nat → DialResult := fun _ => ⟨none, some "connection refused"⟩

/-- A connection configuration naming a protocol without a registered factory. -/
def sampleImapConn : ConnectConfig := ⟨"mail.example.org", "143", "user", "secret", "", "imap", 3⟩

/-- A network on which the first two dials fail and the third succeeds. -/
def sampleDialThird : Nat → DialOutcome := fun i =>
  if i < 2 then .fail "connection refused" else .ok 7

/-- A configuration whose password contains the separator of the pool key. -/
def sampleBarPassword : ConnectConfig := ⟨"mail.example.org", "25", "bob", "x|y", "", "smtp", 3⟩

/-- A configuration whose user name contains the separator of the pool key. -/
def sampleBarUsername : ConnectConfig := ⟨"mail.example.org", "25", "bob|x", "y", "", "smtp", 3⟩

/-- The steps of a race on the sample pool: the warming goroutine passes its test and
dials; meanwhile one caller takes the buffered sender and a second caller creates a
new one; then the dial returns sender 1. -/
def sampleRace : List IOp :=
  [.warmTest, .call (.getSender ⟨some 8, none⟩ 1), .call (.getSender ⟨some 2, none⟩ 2),
   .warmDialed ⟨some 1, none⟩ 3]

/-- The state after `sampleRace`: two senders held, one buffered, counter three. -/
def sampleRaceEnd : Interleaved :=
  ⟨⟨⟨sampleCfg, buildProtocolConnectConfig sampleConn, [⟨some 1, 3⟩], false,
     some SenderFactory.SmtpSenderFactory, 3, true, []⟩, [some 2, some 0]⟩, false⟩

/-- The invariant kept by every operation of a pool, for `h` senders held by callers:
the configuration is `cfg`; the counter equals buffered plus held; the counter stays
inside int32; the buffer respects the channel capacity; the channel is closed exactly
when the pool is not running; and, when `0 ≤ InitialCap ≤ MaxCap`, the ceiling. -/
structure PInv (cfg : PoolCofig) (p : Pool) (h : Nat) : Prop where
  cfg_eq : p.poolConfig = cfg
  acct : p.openedConnNum = (p.senderCache.length : Int) + (h : Int)
  rng : p.openedConnNum ≤ 2147483647
  cap_ok : (p.senderCache.length : Int) ≤ max 0 cfg.MaxCap
  run_closed : p.running = !p.chanClosed
  ceil : 0 ≤ cfg.InitialCap → cfg.InitialCap ≤ cfg.MaxCap → p.openedConnNum ≤ cfg.MaxCap

/-! ## Proofs: arithmetic of int32 -/

theorem toInt32_id {x : Int} (h1 : -2147483648 ≤ x) (h2 : x ≤ 2147483647) : toInt32 x = x := by
  unfold toInt32; omega

theorem toInt32_le {x : Int} (h : 0 ≤ x) : toInt32 x ≤ x := by
  unfold toInt32; omega

theorem toInt32_le_max (x : Int) : toInt32 x ≤ 2147483647 := by
  unfold toInt32; omega

/-! ## Proofs: the pool invariant -/

theorem CloseConn_some (p : Pool) (n : Nat) :
    CloseConn p (some n) = (.ret (), { p with closeLog := p.closeLog ++ [n],
                                              openedConnNum := toInt32 (p.openedConnNum - 1) }) := rfl

theorem CloseConn_none (p : Pool) : CloseConn p none = (.panic, p) := rfl

/-- Closing a sender that the counter accounts for keeps the invariant, the sender
gone from the buffer (`h` unchanged) or from the callers. -/
theorem CloseConn_inv {cfg : PoolCofig} {p : Pool} {h : Nat} (n : Nat)
    (hc : p.poolConfig = cfg)
    (ha : p.openedConnNum = (p.senderCache.length : Int) + (h : Int) + 1)
    (hr : p.openedConnNum ≤ 2147483647)
    (hk : (p.senderCache.length : Int) ≤ max 0 cfg.MaxCap)
    (hrc : p.running = !p.chanClosed)
    (hce : 0 ≤ cfg.InitialCap → cfg.InitialCap ≤ cfg.MaxCap → p.openedConnNum ≤ cfg.MaxCap) :
    PInv cfg (CloseConn p (some n)).2 h := by
  have e : toInt32 (p.openedConnNum - 1) = p.openedConnNum - 1 := toInt32_id (by omega) (by omega)
  refine ⟨hc, ?_, ?_, hk, hrc, ?_⟩
  · simp only [CloseConn_some, e]; omega
  · simp only [CloseConn_some, e]; omega
  · intro h1 h2
    have := hce h1 h2
    simp only [CloseConn_some, e]; omega

theorem GetSender_loop_inv {cfg : PoolCofig} (fr : FactoryResult) (now : Int) :
    ∀ (l : List timeoutEmailSender) (p : Pool) (h : Nat),
      p.senderCache = l → p.chanClosed = false → PInv cfg p h →
      ∀ (r : Res GetRet) (q : Pool), GetSender.loop fr now l p = (r, q) →
        (∀ x, r = .ret x → PInv cfg q (if x.handedOut then h + 1 else h)) ∧
        (r = .blocked → PInv cfg q h) := by
  intro l
  induction l with
  | nil =>
    intro p h hl hcl hinv r q hres
    obtain ⟨hc, ha, hr, hk, hrc, hce⟩ := hinv
    simp only [GetSender.loop, hcl] at hres
    by_cases hfull : p.openedConnNum ≥ toInt32 p.poolConfig.MaxCap
    · simp only [hfull, if_true] at hres
      cases hres
      exact ⟨fun x hx => (by cases hx), fun _ => ⟨hc, ha, hr, hk, hrc, hce⟩⟩
    · simp only [hfull, if_false] at hres
      have hlt : p.openedConnNum < toInt32 p.poolConfig.MaxCap := by omega
      have hmx := toInt32_le_max p.poolConfig.MaxCap
      have hnn : (0 : Int) ≤ p.openedConnNum := by rw [ha]; omega
      have e1 : toInt32 (p.openedConnNum + 1) = p.openedConnNum + 1 :=
        toInt32_id (by omega) (by omega)
      have e2 : toInt32 (p.openedConnNum + 1 - 1) = p.openedConnNum :=
        by rw [toInt32_id (by omega) (by omega)]; omega
      cases hf : p.factory with
      | none =>
        simp only [hf] at hres
        cases hres
        exact ⟨fun x hx => (by cases hx), fun hx => by cases hx⟩
      | some f =>
        simp only [hf] at hres
        by_cases hbad : (fr.err.isSome || fr.sender.isNone) = true
        · simp only [hbad, if_true, e1, e2] at hres
          cases hres
          refine ⟨fun x hx => ?_, fun hx => by cases hx⟩
          cases hx
          have hho : GetRet.handedOut ⟨none, fr.err, false⟩ = false := by
            simp [GetRet.handedOut]
          rw [hho]
          exact ⟨hc, ha, hr, hk, by simpa [hcl] using hrc, hce⟩
        · simp only [hbad, e1] at hres
          cases hres
          refine ⟨fun x hx => ?_, fun hx => by cases hx⟩
          cases hx
          have hho : GetRet.handedOut ⟨fr.sender, none, false⟩ = true := by
            simp only [Bool.or_eq_true, Option.isSome_iff_exists, not_or] at hbad
            cases hs : fr.sender with
            | none => simp [hs] at hbad
            | some v => simp [GetRet.handedOut]
          rw [hho]
          refine ⟨hc, ?_, ?_, hk, by simpa [hcl] using hrc, ?_⟩
          · simp only [if_true]; push_cast; omega
          · show p.openedConnNum + 1 ≤ 2147483647
            omega
          · intro h1 h2
            show p.openedConnNum + 1 ≤ cfg.MaxCap
            have := toInt32_le (x := p.poolConfig.MaxCap) (by rw [hc]; omega)
            rw [hc] at this hlt
            omega
  | cons w rest ih =>
    intro p h hl hcl hinv r q hres
    obtain ⟨hc, ha, hr, hk, hrc, hce⟩ := hinv
    simp only [GetSender.loop] at hres
    by_cases hst : w.lastUseTime + p.poolConfig.IdleTimeout < now
    · simp only [hst, if_true] at hres
      cases hs : w.sender with
      | none =>
        simp only [hs, CloseConn_none] at hres
        cases hres
        exact ⟨fun x hx => (by cases hx), fun hx => by cases hx⟩
      | some n =>
        simp only [hs, CloseConn_some] at hres
        have hlen : (p.senderCache.length : Int) = (rest.length : Int) + 1 := by
          rw [hl]; simp
        have hp1 := @CloseConn_inv cfg { p with senderCache := rest } h n
          hc (by show p.openedConnNum = (rest.length : Int) + h + 1; omega) hr
          (by show (rest.length : Int) ≤ max 0 cfg.MaxCap; omega) hrc hce
        refine ih _ h ?_ ?_ ?_ r q hres
        · rfl
        · exact hcl
        · exact hp1
    · simp only [hst, if_false] at hres
      cases hres
      refine ⟨fun x hx => ?_, fun hx => by cases hx⟩
      cases hx
      have hlen : (p.senderCache.length : Int) = (rest.length : Int) + 1 := by
        rw [hl]; simp
      have hho : GetRet.handedOut ⟨w.sender, none, true⟩ = true := by simp [GetRet.handedOut]
      rw [hho]
      refine ⟨hc, ?_, hr, ?_, hrc, hce⟩
      · show p.openedConnNum = (rest.length : Int) + ((if true = true then h + 1 else h : Nat) : Int)
        simp only [if_true]; push_cast; omega
      · show (rest.length : Int) ≤ max 0 cfg.MaxCap
        omega

theorem chanSend_ret {p q : Pool} {w : timeoutEmailSender} {u : Unit}
    (h : chanSend p w = (.ret u, q)) :
    p.chanClosed = false ∧ (p.senderCache.length : Int) < p.poolConfig.MaxCap ∧
      q = { p with senderCache := p.senderCache ++ [w] } := by
  unfold chanSend at h
  by_cases hc : p.chanClosed = true
  · rw [if_pos hc] at h; simp at h
  · rw [if_neg hc] at h
    by_cases hl : (p.senderCache.length : Int) < p.poolConfig.MaxCap
    · rw [if_pos hl] at h
      simp only [Prod.mk.injEq] at h
      exact ⟨by simpa using hc, hl, h.2.symm⟩
    · rw [if_neg hl] at h; simp at h

theorem chanSend_blocked {p q : Pool} {w : timeoutEmailSender}
    (h : chanSend p w = (.blocked, q)) : q = p := by
  unfold chanSend at h
  by_cases hc : p.chanClosed = true
  · rw [if_pos hc] at h; simp at h
  · rw [if_neg hc] at h
    by_cases hl : (p.senderCache.length : Int) < p.poolConfig.MaxCap
    · rw [if_pos hl] at h; simp at h
    · rw [if_neg hl] at h
      simp only [Prod.mk.injEq] at h
      exact h.2.symm

theorem chanSend_closed {p : Pool} {w : timeoutEmailSender} (h : p.chanClosed = true) :
    chanSend p w = (.panic, p) := by
  simp [chanSend, h]

theorem warmUpIter_inv {cfg : PoolCofig} {p q : Pool} {h : Nat} {fr : FactoryResult}
    {now : Int} {r : Res Bool} (hinv : PInv cfg p h)
    (hres : warmUpIter p fr now = (r, q)) (hr : r ≠ .panic) : PInv cfg q h := by
  obtain ⟨hc, ha, hrg, hk, hrc, hce⟩ := hinv
  unfold warmUpIter at hres
  by_cases hfull : p.openedConnNum ≥ toInt32 p.poolConfig.InitialCap
  · simp only [hfull, if_true, Prod.mk.injEq] at hres
    rw [← hres.2]
    exact ⟨hc, ha, hrg, hk, hrc, hce⟩
  · simp only [hfull, if_false] at hres
    cases hf : p.factory with
    | none =>
      simp only [hf, Prod.mk.injEq] at hres
      exact absurd hres.1.symm hr
    | some f =>
      simp only [hf] at hres
      by_cases hskip : (fr.err.isSome && fr.sender.isNone) = true
      · simp only [hskip, if_true, Prod.mk.injEq] at hres
        rw [← hres.2]
        exact ⟨hc, ha, hrg, hk, hrc, hce⟩
      · rw [if_neg hskip] at hres
        cases hs : chanSend p ⟨fr.sender, now⟩ with
        | mk r1 p1 =>
          rw [hs] at hres
          cases r1 with
          | panic =>
            simp only [Prod.mk.injEq] at hres
            exact absurd hres.1.symm hr
          | blocked =>
            simp only [Prod.mk.injEq] at hres
            rw [← hres.2, chanSend_blocked hs]
            exact ⟨hc, ha, hrg, hk, hrc, hce⟩
          | ret u =>
            simp only [Prod.mk.injEq] at hres
            obtain ⟨hcl, hlt, hp1⟩ := chanSend_ret hs
            rw [← hres.2, hp1]
            have hlt2 : p.openedConnNum < toInt32 p.poolConfig.InitialCap := by omega
            have hmx := toInt32_le_max p.poolConfig.InitialCap
            have e1 : toInt32 (p.openedConnNum + 1) = p.openedConnNum + 1 :=
              toInt32_id (by omega) (by omega)
            rw [hc] at hlt
            refine ⟨hc, ?_, ?_, ?_, hrc, ?_⟩
            · show toInt32 (p.openedConnNum + 1) = ((p.senderCache ++ [_]).length : Int) + h
              rw [e1]; simp only [List.length_append, List.length_singleton]; push_cast; omega
            · show toInt32 (p.openedConnNum + 1) ≤ 2147483647
              rw [e1]; omega
            · show ((p.senderCache ++ [_]).length : Int) ≤ max 0 cfg.MaxCap
              simp only [List.length_append, List.length_singleton]; push_cast; omega
            · intro h1 h2
              show toInt32 (p.openedConnNum + 1) ≤ cfg.MaxCap
              rw [e1]
              have := toInt32_le (x := p.poolConfig.InitialCap) (by rw [hc]; omega)
              rw [hc] at this hlt2
              omega

theorem PutSender_inv {cfg : PoolCofig} {p q : Pool} {h : Nat} {s : EmailSender}
    {now : Int} {u : Unit} (hinv : PInv cfg p (h + 1))
    (hres : PutSender p s now = (.ret u, q)) : PInv cfg q h := by
  obtain ⟨hc, ha, hrg, hk, hrc, hce⟩ := hinv
  unfold PutSender at hres
  by_cases hrun : p.running = true
  · simp only [hrun, Bool.not_true, Bool.false_eq_true, if_false] at hres
    obtain ⟨hcl, hlt, hp1⟩ := chanSend_ret hres
    rw [hp1]
    rw [hc] at hlt
    refine ⟨hc, ?_, hrg, ?_, hrc, hce⟩
    · show p.openedConnNum = ((p.senderCache ++ [_]).length : Int) + h
      simp only [List.length_append, List.length_singleton]; push_cast
      push_cast at ha; omega
    · show ((p.senderCache ++ [_]).length : Int) ≤ max 0 cfg.MaxCap
      simp only [List.length_append, List.length_singleton]; push_cast; omega
  · have hrun2 : p.running = false := by simpa using hrun
    have hcl : p.chanClosed = true := by
      rw [hrun2] at hrc
      cases hcc : p.chanClosed <;> simp [hcc] at hrc ⊢
    simp only [hrun2, Bool.not_false, if_true] at hres
    cases s with
    | none => simp [CloseConn_none] at hres
    | some n =>
      simp only [CloseConn_some] at hres
      rw [chanSend_closed (by exact hcl)] at hres
      simp at hres

/-- A `PutSender` that cannot proceed has changed nothing (the pool is running: on a
stopped pool the channel is closed and the send panics). -/
theorem PutSender_blocked {p q : Pool} {s : EmailSender} {now : Int}
    (hrc : p.running = !p.chanClosed) (hres : PutSender p s now = (.blocked, q)) : q = p := by
  unfold PutSender at hres
  by_cases hrun : p.running = true
  · simp only [hrun, Bool.not_true, Bool.false_eq_true, if_false] at hres
    exact chanSend_blocked hres
  · have hrun2 : p.running = false := by simpa using hrun
    have hcl : p.chanClosed = true := by
      rw [hrun2] at hrc
      cases hcc : p.chanClosed <;> simp [hcc] at hrc ⊢
    simp only [hrun2, Bool.not_false, if_true] at hres
    cases s with
    | none => simp [CloseConn_none] at hres
    | some n =>
      simp only [CloseConn_some] at hres
      rw [chanSend_closed (by exact hcl)] at hres
      simp at hres

theorem closePool_loop_ret :
    ∀ (l : List timeoutEmailSender) (p : Pool) (h : Nat),
      p.senderCache = l → p.openedConnNum = (l.length : Int) + (h : Int) →
      p.openedConnNum ≤ 2147483647 →
      ∀ (u : Unit) (q : Pool), closePool.loop l p = (.ret u, q) →
        q.poolConfig = p.poolConfig ∧ q.senderCache = [] ∧ q.openedConnNum = (h : Int) ∧
        q.chanClosed = false ∧ q.running = p.running := by
  intro l
  induction l with
  | nil =>
    intro p h hl ha hr u q hres
    unfold closePool.loop at hres
    by_cases hc : p.chanClosed = true
    · rw [if_pos hc] at hres; simp [CloseConn_none] at hres
    · rw [if_neg hc] at hres
      simp only [Prod.mk.injEq] at hres
      rw [← hres.2]
      exact ⟨rfl, hl, by simpa using ha, by simpa using hc, rfl⟩
  | cons w rest ih =>
    intro p h hl ha hr u q hres
    unfold closePool.loop at hres
    cases hs : w.sender with
    | none => simp [hs, CloseConn_none] at hres
    | some n =>
      simp only [hs, CloseConn_some] at hres
      have hlen : ((w :: rest).length : Int) = (rest.length : Int) + 1 := by simp
      have e : toInt32 (p.openedConnNum - 1) = p.openedConnNum - 1 :=
        toInt32_id (by omega) (by omega)
      have := ih _ h (by rfl) (by show toInt32 (p.openedConnNum - 1) = _; rw [e]; omega)
        (by show toInt32 (p.openedConnNum - 1) ≤ _; rw [e]; omega) u q hres
      exact this

theorem closePool_inv {cfg : PoolCofig} {p q : Pool} {h : Nat} {e : Option String}
    (hinv : PInv cfg p h) (hres : closePool p = (.ret e, q)) : PInv cfg q h := by
  obtain ⟨hc, ha, hrg, hk, hrc, hce⟩ := hinv
  unfold closePool at hres
  cases hs : closePool.loop p.senderCache { p with running := false } with
  | mk r1 p1 =>
    simp only [hs] at hres
    cases r1 with
    | panic => simp at hres
    | blocked => simp at hres
    | ret u =>
      obtain ⟨h1, h2, h3, h4, h5⟩ :=
        closePool_loop_ret p.senderCache { p with running := false } h rfl ha hrg u p1 hs
      simp only [h4, Bool.false_eq_true, if_false, Prod.mk.injEq] at hres
      rw [← hres.2]
      refine ⟨?_, ?_, ?_, ?_, ?_, ?_⟩
      · show p1.poolConfig = cfg
        rw [h1]; exact hc
      · show p1.openedConnNum = (p1.senderCache.length : Int) + h
        rw [h2, h3]; simp
      · show p1.openedConnNum ≤ 2147483647
        rw [h3]; omega
      · show (p1.senderCache.length : Int) ≤ max 0 cfg.MaxCap
        rw [h2]; simp
      · show p1.running = !true
        rw [h5]; rfl
      · intro a b
        show p1.openedConnNum ≤ cfg.MaxCap
        have := hce a b
        rw [h3]; omega

theorem cleanIdleConn_loop_inv {cfg : PoolCofig} (now : Int) :
    ∀ (fuel i : Nat) (p : Pool) (h : Nat), PInv cfg p h →
      ∀ (r : Res Unit) (q : Pool), cleanIdleConn.loop now fuel i p = some (r, q) →
        r ≠ .panic → PInv cfg q h := by
  intro fuel
  induction fuel with
  | zero =>
    intro i p h hinv r q hres hr
    unfold cleanIdleConn.loop at hres
    by_cases hg : (i : Int) < p.openedConnNum
    · rw [if_pos hg] at hres; simp at hres
    · rw [if_neg hg] at hres
      simp only [Option.some.injEq, Prod.mk.injEq] at hres
      rw [← hres.2]; exact hinv
  | succ fuel ih =>
    intro i p h hinv r q hres hr
    unfold cleanIdleConn.loop at hres
    by_cases hg : (i : Int) < p.openedConnNum
    · rw [if_pos hg] at hres
      simp only at hres
      cases hb : p.senderCache with
      | nil =>
        simp only [hb] at hres
        by_cases hc : p.chanClosed = true
        · rw [if_pos hc] at hres
          by_cases hst : (0 : Int) + p.poolConfig.IdleTimeout < now
          · rw [if_pos hst] at hres
            simp only [CloseConn_none, Option.some.injEq, Prod.mk.injEq] at hres
            exact absurd hres.1.symm hr
          · rw [if_neg hst, chanSend_closed hc] at hres
            simp only [Option.some.injEq, Prod.mk.injEq] at hres
            exact absurd hres.1.symm hr
        · rw [if_neg hc] at hres
          simp only [Option.some.injEq, Prod.mk.injEq] at hres
          rw [← hres.2]; exact hinv
      | cons w rest =>
        obtain ⟨hc, ha, hrg, hk, hrc, hce⟩ := hinv
        simp only [hb] at hres
        have hlen : (p.senderCache.length : Int) = (rest.length : Int) + 1 := by
          rw [hb]; simp
        by_cases hst : w.lastUseTime + p.poolConfig.IdleTimeout < now
        · rw [if_pos hst] at hres
          cases hs : w.sender with
          | none =>
            simp only [hs, CloseConn_none, Option.some.injEq, Prod.mk.injEq] at hres
            exact absurd hres.1.symm hr
          | some n =>
            simp only [hs, CloseConn_some] at hres
            have hp1 := @CloseConn_inv cfg { p with senderCache := rest } h n
              hc (by show p.openedConnNum = (rest.length : Int) + h + 1; omega) hrg
              (by show (rest.length : Int) ≤ max 0 cfg.MaxCap; omega) hrc hce
            exact ih (i + 1) _ h hp1 r q hres hr
        · rw [if_neg hst] at hres
          cases hs : chanSend { p with senderCache := rest } w with
          | mk r1 p1 =>
            simp only [hs] at hres
            cases r1 with
            | panic =>
              simp only [Option.some.injEq, Prod.mk.injEq] at hres
              exact absurd hres.1.symm hr
            | blocked =>
              exfalso
              unfold chanSend at hs
              by_cases hcc : p.chanClosed = true
              · simp [hcc] at hs
              · have hroom : (rest.length : Int) < p.poolConfig.MaxCap := by rw [hc]; omega
                simp [hcc, hroom] at hs
            | ret u =>
              obtain ⟨hcl, hlt, hp1⟩ := chanSend_ret hs
              have hq : PInv cfg p1 h := by
                rw [hp1]
                refine ⟨hc, ?_, hrg, ?_, hrc, hce⟩
                · show p.openedConnNum = ((rest ++ [w]).length : Int) + h
                  simp only [List.length_append, List.length_singleton]; push_cast; omega
                · show ((rest ++ [w]).length : Int) ≤ max 0 cfg.MaxCap
                  simp only [List.length_append, List.length_singleton]; push_cast; omega
              exact ih (i + 1) p1 h hq r q hres hr
    · rw [if_neg hg] at hres
      simp only [Option.some.injEq, Prod.mk.injEq] at hres
      rw [← hres.2]; exact hinv

/-- The fuel given by `cleanIdleConnPass` never runs out. -/
theorem cleanIdleConn_loop_fuel (now : Int) :
    ∀ (fuel i : Nat) (p : Pool), (p.openedConnNum - (i : Int)).toNat ≤ fuel →
      cleanIdleConn.loop now fuel i p ≠ none := by
  intro fuel
  induction fuel with
  | zero =>
    intro i p hf
    unfold cleanIdleConn.loop
    have hg : ¬ ((i : Int) < p.openedConnNum) := by omega
    rw [if_neg hg]; simp
  | succ fuel ih =>
    intro i p hf
    unfold cleanIdleConn.loop
    by_cases hg : (i : Int) < p.openedConnNum
    · rw [if_pos hg]
      simp only
      have hdec : ∀ q : Pool, q.openedConnNum = toInt32 (p.openedConnNum - 1) →
          (q.openedConnNum - ((i + 1 : Nat) : Int)).toNat ≤ fuel := by
        intro q hq
        have := toInt32_le (x := p.openedConnNum - 1) (by omega)
        push_cast; omega
      have hsame : ∀ q : Pool, q.openedConnNum = p.openedConnNum →
          (q.openedConnNum - ((i + 1 : Nat) : Int)).toNat ≤ fuel := by
        intro q hq
        push_cast; omega
      cases hb : p.senderCache with
      | nil =>
        simp only
        by_cases hc : p.chanClosed = true
        · rw [if_pos hc]
          by_cases hst : (0 : Int) + p.poolConfig.IdleTimeout < now
          · rw [if_pos hst]; simp [CloseConn_none]
          · rw [if_neg hst, chanSend_closed hc]; simp
        · rw [if_neg hc]; simp
      | cons w rest =>
        simp only
        by_cases hst : w.lastUseTime + p.poolConfig.IdleTimeout < now
        · rw [if_pos hst]
          cases hs : w.sender with
          | none => simp [CloseConn_none]
          | some n =>
            simp only [CloseConn_some]
            exact ih (i + 1) _ (hdec _ rfl)
        · rw [if_neg hst]
          cases hs : chanSend { p with senderCache := rest } w with
          | mk r1 p1 =>
            cases r1 with
            | panic => simp
            | blocked => simp
            | ret u =>
              simp only
              obtain ⟨_, _, hp1⟩ := chanSend_ret hs
              exact ih (i + 1) p1 (hsame p1 (by rw [hp1]))
    · rw [if_neg hg]; simp

theorem cleanIdleConnPass_returns (p : Pool) (now : Int) :
    cleanIdleConnPass p now ≠ none := by
  unfold cleanIdleConnPass
  exact cleanIdleConn_loop_fuel now _ 0 p (by simp)

/-- Every operation keeps the invariant. -/
theorem step_inv {cfg : PoolCofig} {w v : World} (op : Op)
    (hinv : PInv cfg w.pool w.held.length) (hs : step w op = some v) :
    PInv cfg v.pool v.held.length := by
  cases op with
  | getSender fr now =>
    simp only [step] at hs
    cases hg : GetSender w.pool fr now with
    | mk r q =>
      rw [hg] at hs
      unfold GetSender at hg
      by_cases hrun : w.pool.running = true
      · have hcl : w.pool.chanClosed = false := by
          have := hinv.run_closed
          rw [hrun] at this
          cases hcc : w.pool.chanClosed <;> simp [hcc] at this ⊢
        simp only [hrun, Bool.not_true, Bool.false_eq_true, if_false] at hg
        have hl := GetSender_loop_inv fr now w.pool.senderCache w.pool w.held.length rfl hcl hinv r q hg
        cases r with
        | panic => simp at hs
        | blocked =>
          simp only [Option.some.injEq] at hs
          rw [← hs]; exact hl.2 rfl
        | ret x =>
          simp only [Option.some.injEq] at hs
          rw [← hs]
          have := hl.1 x rfl
          by_cases hh : x.handedOut = true
          · simp only [hh, if_true] at this ⊢
            simpa using this
          · simp only [hh, Bool.false_eq_true, if_false] at this ⊢
            exact this
      · have hrun2 : w.pool.running = false := by simpa using hrun
        simp only [hrun2, Bool.not_false, if_true, Prod.mk.injEq] at hg
        rw [← hg.1] at hs
        simp only [GetRet.handedOut, Option.some.injEq] at hs
        rw [← hs, ← hg.2]
        simpa using hinv
  | putSender s now =>
    simp only [step] at hs
    by_cases hm : s ∈ w.held
    · rw [if_pos hm] at hs
      have hlen : w.held.length = (w.held.erase s).length + 1 := by
        rw [List.length_erase_of_mem hm]
        have := List.length_pos_of_mem hm
        omega
      cases hp : PutSender w.pool s now with
      | mk r q =>
        rw [hp] at hs
        cases r with
        | panic => simp at hs
        | blocked =>
          simp only [Option.some.injEq] at hs
          rw [← hs, PutSender_blocked hinv.run_closed hp]; exact hinv
        | ret u =>
          simp only [Option.some.injEq] at hs
          rw [← hs]
          rw [hlen] at hinv
          exact PutSender_inv hinv hp
    · rw [if_neg hm] at hs; simp at hs
  | closeConn s =>
    simp only [step] at hs
    by_cases hm : s ∈ w.held
    · rw [if_pos hm] at hs
      have hlen : w.held.length = (w.held.erase s).length + 1 := by
        rw [List.length_erase_of_mem hm]
        have := List.length_pos_of_mem hm
        omega
      cases s with
      | none => simp [CloseConn_none] at hs
      | some n =>
        simp only [CloseConn_some, Option.some.injEq] at hs
        rw [← hs]
        obtain ⟨hc, ha, hrg, hk, hrc, hce⟩ := hinv
        exact CloseConn_inv n hc (by rw [ha, hlen]; push_cast; omega) hrg hk hrc hce
    · rw [if_neg hm] at hs; simp at hs
  | warmUp fr now =>
    simp only [step] at hs
    cases hp : warmUpIter w.pool fr now with
    | mk r q =>
      rw [hp] at hs
      cases r with
      | panic => simp at hs
      | blocked =>
        simp only [Option.some.injEq] at hs
        rw [← hs]; exact warmUpIter_inv hinv hp (by simp)
      | ret u =>
        simp only [Option.some.injEq] at hs
        rw [← hs]; exact warmUpIter_inv hinv hp (by simp)
  | reaper now =>
    simp only [step] at hs
    cases hp : cleanIdleConnPass w.pool now with
    | none => rw [hp] at hs; simp at hs
    | some rq =>
      obtain ⟨r, q⟩ := rq
      rw [hp] at hs
      unfold cleanIdleConnPass at hp
      cases r with
      | panic => simp at hs
      | blocked =>
        simp only [Option.some.injEq] at hs
        rw [← hs]
        exact cleanIdleConn_loop_inv now _ 0 w.pool _ hinv _ q hp (by simp)
      | ret u =>
        simp only [Option.some.injEq] at hs
        rw [← hs]
        exact cleanIdleConn_loop_inv now _ 0 w.pool _ hinv _ q hp (by simp)
  | closePool =>
    simp only [step] at hs
    cases hp : closePool w.pool with
    | mk r q =>
      rw [hp] at hs
      cases r with
      | panic => simp at hs
      | blocked => simp at hs
      | ret e =>
        simp only [Option.some.injEq] at hs
        rw [← hs]
        exact closePool_inv hinv hp

/-- Every sequence of operations keeps the invariant. -/
theorem run_inv {cfg : PoolCofig} :
    ∀ (ops : List Op) (w v : World), PInv cfg w.pool w.held.length →
      run w ops = some v → PInv cfg v.pool v.held.length := by
  intro ops
  induction ops with
  | nil =>
    intro w v hinv hr
    simp only [run, Option.some.injEq] at hr
    rw [← hr]; exact hinv
  | cons op ops ih =>
    intro w v hinv hr
    simp only [run] at hr
    cases hs : step w op with
    | none => rw [hs] at hr; simp at hr
    | some w1 =>
      rw [hs] at hr
      exact ih w1 v (step_inv op hinv hs) hr

/-- The invariant holds when `initPool` has returned on a fresh pool. -/
theorem started_inv {cfg : PoolCofig} {factory : Option SenderFactory} {conn : ConnectConfig}
    {fr : FactoryResult} {now : Int} {w : World} {e : Option String}
    (hs : started cfg factory conn fr now = some (w, e)) :
    PInv cfg w.pool w.held.length := by
  unfold started newEmailSenderPool at hs
  by_cases hneg : cfg.MaxCap < 0
  · rw [if_pos hneg] at hs; simp at hs
  · rw [if_neg hneg] at hs
    simp only [initPool] at hs
    cases hf : factory with
    | none => simp [hf] at hs
    | some f =>
      simp only [hf] at hs
      by_cases hbad : (fr.err.isSome || fr.sender.isNone) = true
      · rw [if_pos hbad] at hs
        simp only [Option.some.injEq, Prod.mk.injEq] at hs
        rw [← hs.1]
        refine ⟨rfl, by simp, by simp, by simp, by simp, ?_⟩
        intro a b
        show (0 : Int) ≤ cfg.MaxCap
        omega
      · rw [if_neg hbad] at hs
        simp only [chanSend, Bool.false_eq_true, if_false, List.length_nil, Nat.cast_zero,
          List.nil_append] at hs
        by_cases hroom : (0 : Int) < cfg.MaxCap
        · rw [if_pos hroom] at hs
          simp only [Option.some.injEq, Prod.mk.injEq] at hs
          rw [← hs.1]
          refine ⟨rfl, ?_, ?_, ?_, by simp, ?_⟩
          · show toInt32 (0 + 1) = _
            simp [toInt32]
          · show toInt32 (0 + 1) ≤ _
            simp [toInt32]
          · simp only [List.length_singleton, Nat.cast_one]; omega
          · intro a b
            show toInt32 (0 + 1) ≤ cfg.MaxCap
            have : toInt32 (0 + 1) = 1 := by simp [toInt32]
            rw [this]; omega
        · rw [if_neg hroom] at hs; simp at hs

/-! ## C1 and C2: ceiling and accounting -/

/-- An atomic warming iteration is the loop test followed by the rest of the iteration. -/
theorem warmUpIter_eq_test_then_dial (p : Pool) (fr : FactoryResult) (now : Int) :
    warmUpIter p fr now =
      if p.openedConnNum ≥ toInt32 p.poolConfig.InitialCap then (.ret false, p)
      else warmUpAfterDial p fr now := rfl

/-- When every operation, a whole warming iteration included, is one atomic step, the
counter stays below the ceiling. -/
theorem ceiling_atomic_steps (cfg : PoolCofig) (factory : Option SenderFactory)
    (conn : ConnectConfig) (fr : FactoryResult) (now : Int) (e : Option String)
    (ops : List Op) (w0 w : World)
    (hlo : 0 ≤ cfg.InitialCap) (hhi : cfg.InitialCap ≤ cfg.MaxCap)
    (hstart : started cfg factory conn fr now = some (w0, e))
    (hrun : run w0 ops = some w) :
    w.pool.openedConnNum ≤ cfg.MaxCap :=
  (run_inv ops w0 w (started_inv hstart) hrun).ceil hlo hhi

/-- C1 (defect of the code). The ceiling `openedConnNum ≤ MaxCap` is broken by the
warming goroutine: it tests `openedConnNum >= InitialCap`, calls the factory without the
mutex and only then does `Add(1)`, while `GetSender` reserves its slot under the mutex
before it calls the factory. With `InitialCap = MaxCap = 2`, after `initPool` the
goroutine passes its test (counter 1) and dials; one `GetSender` takes the buffered
sender, a second one creates a sender (counter 2); the dial returns and the goroutine
enqueues and increments: the counter is 3. -/
theorem ceiling_broken_by_warming_race :
    (0 ≤ sampleCfg.InitialCap ∧ sampleCfg.InitialCap ≤ sampleCfg.MaxCap) ∧
    started sampleCfg (some SenderFactory.SmtpSenderFactory) sampleConn ⟨some 0, none⟩ 0
      = some (sampleStart, none) ∧
    irun ⟨sampleStart, false⟩ sampleRace = some sampleRaceEnd ∧
    sampleRaceEnd.world.pool.openedConnNum = 3 ∧
    ¬ (sampleRaceEnd.world.pool.openedConnNum ≤ sampleCfg.MaxCap) :=
  ⟨⟨by decide, by decide⟩, by rfl, by rfl, by rfl, by decide⟩

/-- C2 (accounting). In every state reached from a fresh pool by a successful `initPool`
and then any sequence of GetSender, PutSender, CloseConn, warm-up iterations and reaper
passes (each an atomic step, callers releasing or closing only senders they hold, one
holding at a time), `openedConnNum` equals the number of buffered senders plus the
number of senders held by callers. -/
theorem accounting_invariant (cfg : PoolCofig) (factory : Option SenderFactory)
    (conn : ConnectConfig) (fr : FactoryResult) (now : Int)
    (ops : List Op) (w0 w : World)
    (hstart : started cfg factory conn fr now = some (w0, none))
    (_hops : ∀ op ∈ ops, op.isClosePool = false)
    (hrun : run w0 ops = some w) :
    w.pool.openedConnNum = (w.pool.senderCache.length : Int) + (w.held.length : Int) :=
  (run_inv ops w0 w (started_inv hstart) hrun).acct

theorem accounting_invariant_witness :
    started sampleCfg (some SenderFactory.SmtpSenderFactory) sampleConn ⟨some 0, none⟩ 0
      = some (sampleStart, none) ∧
    (∀ op ∈ sampleOps, op.isClosePool = false) ∧
    run sampleStart sampleOps = some sampleAfterOps ∧
    sampleAfterOps.pool.openedConnNum
      = (sampleAfterOps.pool.senderCache.length : Int) + (sampleAfterOps.held.length : Int) :=
  ⟨by rfl, by decide, by rfl,
    accounting_invariant sampleCfg (some SenderFactory.SmtpSenderFactory) sampleConn
      ⟨some 0, none⟩ 0 sampleOps sampleStart sampleAfterOps (by rfl) (by decide) (by rfl)⟩

/-! ## C3 and C5: the closed pool -/

theorem closePool_loop_flags :
    ∀ (l : List timeoutEmailSender) (p : Pool), p.senderCache = l →
      ∀ (u : Unit) (q : Pool), closePool.loop l p = (.ret u, q) →
        q.senderCache = [] ∧ q.chanClosed = false ∧ q.running = p.running := by
  intro l
  induction l with
  | nil =>
    intro p hl u q hres
    unfold closePool.loop at hres
    by_cases hc : p.chanClosed = true
    · rw [if_pos hc] at hres; simp [CloseConn_none] at hres
    · rw [if_neg hc] at hres
      simp only [Prod.mk.injEq] at hres
      rw [← hres.2]
      exact ⟨hl, by simpa using hc, rfl⟩
  | cons w rest ih =>
    intro p hl u q hres
    unfold closePool.loop at hres
    cases hs : w.sender with
    | none => simp [hs, CloseConn_none] at hres
    | some n =>
      simp only [hs, CloseConn_some] at hres
      have := ih _ (by rfl) u q hres
      exact this

/-- After a `closePool` that returned, the pool is stopped, its channel closed and
drained. -/
theorem closePool_ret_shape {p q : Pool} {e : Option String} (h : closePool p = (.ret e, q)) :
    q.running = false ∧ q.chanClosed = true ∧ q.senderCache = [] := by
  unfold closePool at h
  cases hs : closePool.loop p.senderCache { p with running := false } with
  | mk r1 p1 =>
    simp only [hs] at h
    cases r1 with
    | panic => simp at h
    | blocked => simp at h
    | ret u =>
      obtain ⟨h1, h2, h3⟩ := closePool_loop_flags p.senderCache { p with running := false } rfl u p1 hs
      simp only [h2, Bool.false_eq_true, if_false, Prod.mk.injEq] at h
      rw [← h.2]
      exact ⟨h3, rfl, h1⟩

/-- C3 (defect of the code). On a pool with `running == false`, `PutSender` of a sender
closes it once and decrements `openedConnNum`, and then still goes on to the channel
send: on a closed channel (the pool after `closePool`) that send panics, and on a
channel that is still open the closed sender is put into the idle buffer. -/
theorem PutSender_not_running (p : Pool) (n : Nat) (now : Int) (h : p.running = false) :
    (p.chanClosed = true →
      PutSender p (some n) now =
        (.panic, { p with closeLog := p.closeLog ++ [n],
                          openedConnNum := toInt32 (p.openedConnNum - 1) })) ∧
    (p.chanClosed = false → (p.senderCache.length : Int) < p.poolConfig.MaxCap →
      PutSender p (some n) now =
        (.ret (), { p with closeLog := p.closeLog ++ [n],
                           openedConnNum := toInt32 (p.openedConnNum - 1),
                           senderCache := p.senderCache ++ [⟨some n, now⟩] })) := by
  constructor
  · intro hc
    simp [PutSender, h, CloseConn_some, chanSend, hc]
  · intro hc hroom
    simp [PutSender, h, CloseConn_some, chanSend, hc, hroom]

theorem PutSender_not_running_witness :
    sampleClosed.running = false ∧ sampleClosed.chanClosed = true ∧
    PutSender sampleClosed (some 2) 200 =
      (.panic, { sampleClosed with closeLog := [1, 0, 2], openedConnNum := 0 }) :=
  ⟨rfl, rfl, (PutSender_not_running sampleClosed 2 200 rfl).1 rfl⟩

/-- C5 (defect of the code). A second `closePool`, after one that returned, does not
return: the receive from the closed channel yields the zero value, and `CloseConn` of
its nil sender panics (the pool is left as the first call left it). -/
theorem closePool_twice_panics (p q : Pool) (e : Option String)
    (h : closePool p = (.ret e, q)) : closePool q = (.panic, q) := by
  obtain ⟨h1, h2, h3⟩ := closePool_ret_shape h
  cases q
  simp only at h1 h2 h3
  subst h1 h2 h3
  rfl

theorem closePool_twice_panics_witness :
    closePool sampleAfterOps.pool = (.ret none, sampleClosed) ∧
    closePool sampleClosed = (.panic, sampleClosed) :=
  ⟨by rfl, closePool_twice_panics sampleAfterOps.pool sampleClosed none (by rfl)⟩

/-! ## C9: the warming task -/

/-- C9 (defect of the code). A warm-up iteration whose factory call returns a non-nil
sender together with a non-nil error (as `SmtpSenderFactory` does when every dial
fails) puts that sender into the idle buffer and increments `openedConnNum`: the test
of the warming loop is `err != nil && sender == nil`. -/
theorem warmUpIter_enqueues_failed (p : Pool) (fr : FactoryResult) (now : Int)
    (f : SenderFactory) (hlow : p.openedConnNum < toInt32 p.poolConfig.InitialCap)
    (hf : p.factory = some f) (herr : fr.err.isSome = true) (hsome : fr.sender.isSome = true)
    (hopen : p.chanClosed = false) (hroom : (p.senderCache.length : Int) < p.poolConfig.MaxCap) :
    warmUpIter p fr now =
      (.ret true, { p with senderCache := p.senderCache ++ [⟨fr.sender, now⟩],
                           openedConnNum := toInt32 (p.openedConnNum + 1) }) := by
  have hn : fr.sender.isNone = false := by
    cases hs : fr.sender with
    | none => rw [hs] at hsome; simp at hsome
    | some v => rfl
  have hg : ¬ (p.openedConnNum ≥ toInt32 p.poolConfig.InitialCap) := by omega
  simp [warmUpIter, hg, hf, herr, hn, chanSend, hopen, hroom]

theorem warmUpIter_enqueues_failed_witness :
    SmtpSenderFactory.result 1 ⟨"mail.example.org", "25", "user", "secret", "", 3⟩ sampleDialDown
      = ⟨some 1, some "Dial fail, connection refused"⟩ ∧
    warmUpIter sampleWarming ⟨some 1, some "Dial fail, connection refused"⟩ 6 =
      (.ret true, { sampleWarming with
        senderCache := [⟨some 0, 0⟩, ⟨some 1, 6⟩], openedConnNum := 2 }) :=
  ⟨by decide, warmUpIter_enqueues_failed sampleWarming ⟨some 1, some "Dial fail, connection refused"⟩ 6
    SenderFactory.SmtpSenderFactory (by decide) rfl rfl rfl rfl (by decide)⟩

/-! ## C7: a protocol without a factory -/

/-- C7 (defect of the code). On the manager built by `NewEmailPoolManager`, `GetPool`
for a configuration whose `EmailProtocol` is not "smtp" does not return an error: the
factory looked up is nil and `initPool` panics calling it (`make` panics before that
when `MaxCap` is negative). The pools map is left without a new entry. -/
theorem GetPool_unknown_protocol_panics (poolConfig : PoolCofig) (connConfig : ConnectConfig)
    (fr : FactoryResult) (now : Int) (h : connConfig.EmailProtocol ≠ SMTP_PROTOCOL) :
    GetPool (NewEmailPoolManager poolConfig) connConfig fr now =
      (.panic, NewEmailPoolManager poolConfig) := by
  have hb : (connConfig.EmailProtocol == SMTP_PROTOCOL) = false := by
    simpa using h
  unfold GetPool
  simp only [NewEmailPoolManager, List.lookup, hb, newEmailSenderPool]
  by_cases hneg : poolConfig.MaxCap < 0
  · simp [hneg]
  · simp [hneg, initPool]

theorem GetPool_unknown_protocol_panics_witness :
    sampleImapConn.EmailProtocol ≠ SMTP_PROTOCOL ∧
    GetPool (NewEmailPoolManager sampleCfg) sampleImapConn ⟨some 0, none⟩ 0 =
      (.panic, NewEmailPoolManager sampleCfg) :=
  ⟨by decide, GetPool_unknown_protocol_panics sampleCfg sampleImapConn ⟨some 0, none⟩ 0 (by decide)⟩

/-! ## C10: the send loops -/

/-- C10 (defect of the code). With `sendTryNum ≤ 0` the loops of `SendEmailNew` and
`SendEmailByGroup` run no iteration: both return a nil error although no sender was
obtained and nothing was sent; no pool method is called. -/
theorem send_loops_silent_success (sendTryNum : Int) (attempt : Nat → Attempt)
    (h : sendTryNum ≤ 0) :
    SendEmailNew sendTryNum attempt = (.ret none, []) ∧
    SendEmailByGroup sendTryNum attempt = (.ret ([], none), []) := by
  have hz : sendTryNum.toNat = 0 := by omega
  simp [SendEmailNew, SendEmailByGroup, hz, SendEmailNew.loop, SendEmailByGroup.loop]

theorem send_loops_silent_success_witness :
    (0 : Int) ≤ 0 ∧
    SendEmailNew 0 (fun _ => ⟨none, some "conn pool is closed!", none, []⟩) = (.ret none, []) ∧
    SendEmailByGroup 0 (fun _ => ⟨none, some "conn pool is closed!", none, []⟩)
      = (.ret ([], none), []) :=
  ⟨le_refl 0, send_loops_silent_success 0 _ (le_refl 0)⟩

/-! ## C4: freshness at hand-off -/

theorem SmtpSenderFactory_loop_bound (dial : Nat → DialResult) :
    ∀ (n i : Nat) (cur : DialResult), (SmtpSenderFactory.loop dial n i cur).2 ≤ i + n := by
  intro n
  induction n with
  | zero => intro i cur; simp [SmtpSenderFactory.loop]
  | succ n ih =>
    intro i cur
    unfold SmtpSenderFactory.loop
    by_cases h : (dial i).err.isSome = true
    · simp only [h, if_true]
      have := ih (i + 1) (dial i)
      omega
    · simp only [h]
      simp only [Bool.false_eq_true, if_false]
      omega

theorem SmtpSenderFactory_loop_all_fail (dial : Nat → DialResult) :
    ∀ (n i : Nat) (cur : DialResult),
      (∀ j, i ≤ j → j < i + (n + 1) → (dial j).err.isSome = true) →
      SmtpSenderFactory.loop dial (n + 1) i cur = (dial (i + n), i + (n + 1)) := by
  intro n
  induction n with
  | zero =>
    intro i cur h
    have := h i (le_refl i) (by omega)
    simp [SmtpSenderFactory.loop, this]
  | succ n ih =>
    intro i cur h
    have h0 := h i (le_refl i) (by omega)
    rw [SmtpSenderFactory.loop]
    simp only [h0, if_true]
    rw [ih (i + 1) (dial i) (fun j hj1 hj2 => h j (by omega) (by omega))]
    have e1 : i + 1 + n = i + (n + 1) := by omega
    have e2 : i + 1 + (n + 1) = i + (n + 1 + 1) := by omega
    rw [e1, e2]

theorem SmtpSenderFactory_loop_first_ok (dial : Nat → DialResult) :
    ∀ (n i : Nat) (cur : DialResult) (k : Nat), i ≤ k → k < i + n →
      (∀ j, i ≤ j → j < k → (dial j).err.isSome = true) → (dial k).err.isSome = false →
      SmtpSenderFactory.loop dial n i cur = (dial k, k + 1) := by
  intro n
  induction n with
  | zero => intro i cur k h1 h2; omega
  | succ n ih =>
    intro i cur k h1 h2 hfail hok
    rw [SmtpSenderFactory.loop]
    by_cases hik : i = k
    · subst hik
      simp [hok]
    · have h0 := hfail i (le_refl i) (by omega)
      simp only [h0, if_true]
      exact ih (i + 1) (dial i) k (by omega) (by omega)
        (fun j hj1 hj2 => hfail j (by omega) hj2) hok

theorem dialBudget_pos (n : Int) : 1 ≤ dialBudget n := by
  unfold dialBudget
  by_cases h : n ≤ 0
  · rw [if_pos h]; omega
  · rw [if_neg h]; omega

/-- The claim of C8 fails as stated: with `SendRetryNum = 0` and a network whose third
dial is the first to succeed, the factory dials three times, more than
`max(SendRetryNum, 1) = 1`. -/
theorem SmtpSenderFactory_zero_retry_dials_thrice :
    SmtpSenderFactory ⟨"mail.example.org", "25", "user", "secret", "", 0⟩
        (fun i => (sampleDialThird i).toResult) = ⟨⟨some 7⟩, none, 3⟩ ∧
    ¬ (((SmtpSenderFactory ⟨"mail.example.org", "25", "user", "secret", "", 0⟩
        (fun i => (sampleDialThird i).toResult)).dials : Int) ≤ max 0 1) := by
  decide

/-- C8 (amended). `SmtpSenderFactory` makes at most `SendRetryNum` dial attempts when
`SendRetryNum > 0` and at most 3 when `SendRetryNum ≤ 0` (`dialBudget`). It stops at
the first successful dial and returns that session with no error; when all attempts of
the budget fail it returns an error built from the last failure. -/
theorem SmtpSenderFactory_bounded_retries (c : SmtpConnectConfig) (out : Nat → DialOutcome) :
    ((SmtpSenderFactory c (fun i => (out i).toResult)).dials : Int) ≤ dialBudget c.SendRetryNum ∧
    (∀ (k conn : Nat), (k : Int) < dialBudget c.SendRetryNum →
        (∀ j, j < k → ∃ e, out j = .fail e) → out k = .ok conn →
        SmtpSenderFactory c (fun i => (out i).toResult) = ⟨⟨some conn⟩, none, k + 1⟩) ∧
    (∀ (e : String),
        (∀ j : Nat, (j : Int) < dialBudget c.SendRetryNum → ∃ e1, out j = .fail e1) →
        out (dialBudget c.SendRetryNum - 1).toNat = .fail e →
        SmtpSenderFactory c (fun i => (out i).toResult) =
          ⟨⟨none⟩, some ("Dial fail, " ++ e), (dialBudget c.SendRetryNum).toNat⟩) := by
  have hpos := dialBudget_pos c.SendRetryNum
  have hunf : SmtpSenderFactory c (fun i => (out i).toResult) =
      (let r := SmtpSenderFactory.loop (fun i => (out i).toResult)
                  (dialBudget c.SendRetryNum).toNat 0 ⟨none, none⟩
       if r.1.err.isSome || r.1.s.isNone then
         ⟨⟨r.1.s⟩, some ("Dial fail, " ++ fmtErr r.1.err), r.2⟩
       else ⟨⟨r.1.s⟩, none, r.2⟩) := rfl
  have hfailed : ∀ j e1, out j = .fail e1 → ((out j).toResult).err.isSome = true := by
    intro j e1 h; rw [h]; rfl
  refine ⟨?_, ?_, ?_⟩
  · have hb := SmtpSenderFactory_loop_bound (fun i => (out i).toResult)
      (dialBudget c.SendRetryNum).toNat 0 ⟨none, none⟩
    have hd : (SmtpSenderFactory c (fun i => (out i).toResult)).dials =
        (SmtpSenderFactory.loop (fun i => (out i).toResult)
          (dialBudget c.SendRetryNum).toNat 0 ⟨none, none⟩).2 := by
      rw [hunf]
      simp only
      split <;> rfl
    rw [hd]
    omega
  · intro k conn hk hfail hok
    have hl := SmtpSenderFactory_loop_first_ok (fun i => (out i).toResult)
      (dialBudget c.SendRetryNum).toNat 0 ⟨none, none⟩ k (Nat.zero_le k) (by omega)
      (fun j _ hj => by
        obtain ⟨e1, he1⟩ := hfail j hj
        exact hfailed j e1 he1)
      (by show ((out k).toResult).err.isSome = false; rw [hok]; rfl)
    rw [hunf, hl]
    simp only [hok, DialOutcome.toResult]
    rfl
  · intro e hall hlast
    obtain ⟨m, hm⟩ : ∃ m : Nat, (dialBudget c.SendRetryNum).toNat = m + 1 :=
      ⟨(dialBudget c.SendRetryNum).toNat - 1, by omega⟩
    have hidx : (dialBudget c.SendRetryNum - 1).toNat = m := by omega
    have hl := SmtpSenderFactory_loop_all_fail (fun i => (out i).toResult) m 0 ⟨none, none⟩
      (fun j _ hj => by
        obtain ⟨e1, he1⟩ := hall j (by omega)
        exact hfailed j e1 he1)
    rw [hidx] at hlast
    rw [hunf, hm, hl]
    simp only [Nat.zero_add, hlast, DialOutcome.toResult]
    rfl

theorem SmtpSenderFactory_bounded_retries_witness :
    ((2 : Nat) : Int) < dialBudget 0 ∧ (∀ j, j < 2 → ∃ e, sampleDialThird j = .fail e) ∧
    sampleDialThird 2 = .ok 7 ∧
    SmtpSenderFactory ⟨"mail.example.org", "25", "user", "secret", "", 0⟩
      (fun i => (sampleDialThird i).toResult) = ⟨⟨some 7⟩, none, 2 + 1⟩ :=
  ⟨by decide,
    fun j hj => ⟨"connection refused", by unfold sampleDialThird; rw [if_pos hj]⟩,
    by decide,
    (SmtpSenderFactory_bounded_retries ⟨"mail.example.org", "25", "user", "secret", "", 0⟩
      sampleDialThird).2.1 2 7 (by decide)
      (fun j hj => ⟨"connection refused", by unfold sampleDialThird; rw [if_pos hj]⟩)
      (by decide)⟩

/-! ## C6: the key of the pools map -/

theorem append_cons_unique {α : Type} (c : α) :
    ∀ (a b x y : List α), c ∉ a → c ∉ b → a ++ c :: x = b ++ c :: y → a = b ∧ x = y := by
  intro a
  induction a with
  | nil =>
    intro b x y _ hb h
    cases b with
    | nil => simpa using h
    | cons d b =>
      simp only [List.nil_append, List.cons_append, List.cons.injEq] at h
      exact absurd (h.1 ▸ List.mem_cons_self c b) hb
  | cons d a ih =>
    intro b x y ha hb h
    cases b with
    | nil =>
      simp only [List.nil_append, List.cons_append, List.cons.injEq] at h
      exact absurd (h.1 ▸ List.mem_cons_self d a) ha
    | cons d1 b =>
      simp only [List.cons_append, List.cons.injEq] at h
      obtain ⟨h1, h2⟩ := ih b x y (fun hm => ha (List.mem_cons_of_mem d hm))
        (fun hm => hb (List.mem_cons_of_mem d1 hm)) h.2
      exact ⟨by rw [h.1, h1], h2⟩

theorem GetPool_key_data (c : ConnectConfig) :
    (GetPool.key c).data =
      c.Host.data ++ ':' :: (c.PortStr.data ++ '|' :: (c.Username.data ++ '|' ::
        (c.Password.data ++ '|' :: c.EmailProtocol.data))) := by
  simp [GetPool.key, String.data_append]

/-- The claim of C6 fails as stated: two configurations with different credential
tuples (the separator inside the password of one and inside the user name of the
other) get the same key. -/
theorem GetPool_key_collision :
    ¬ (GetPool.key sampleBarPassword = GetPool.key sampleBarUsername ↔
        credentialTuple sampleBarPassword = credentialTuple sampleBarUsername) := by
  decide

/-- C6 (amended). For every two configurations whose `Host` contains no colon and whose
`PortStr`, `Username` and `Password` contain no vertical bar, the keys `GetPool`
computes are equal if and only if the credential tuples
`(Host, PortStr, Username, Password, EmailProtocol)` are equal. -/
theorem GetPool_key_injective (c1 c2 : ConnectConfig)
    (hh1 : ':' ∉ c1.Host.data) (hh2 : ':' ∉ c2.Host.data)
    (hp1 : '|' ∉ c1.PortStr.data) (hp2 : '|' ∉ c2.PortStr.data)
    (hu1 : '|' ∉ c1.Username.data) (hu2 : '|' ∉ c2.Username.data)
    (hw1 : '|' ∉ c1.Password.data) (hw2 : '|' ∉ c2.Password.data) :
    GetPool.key c1 = GetPool.key c2 ↔ credentialTuple c1 = credentialTuple c2 := by
  constructor
  · intro h
    have hd : (GetPool.key c1).data = (GetPool.key c2).data := by rw [h]
    rw [GetPool_key_data, GetPool_key_data] at hd
    obtain ⟨e1, hd⟩ := append_cons_unique ':' _ _ _ _ hh1 hh2 hd
    obtain ⟨e2, hd⟩ := append_cons_unique '|' _ _ _ _ hp1 hp2 hd
    obtain ⟨e3, hd⟩ := append_cons_unique '|' _ _ _ _ hu1 hu2 hd
    obtain ⟨e4, e5⟩ := append_cons_unique '|' _ _ _ _ hw1 hw2 hd
    simp only [credentialTuple, Prod.mk.injEq]
    exact ⟨String.ext e1, String.ext e2, String.ext e3, String.ext e4, String.ext e5⟩
  · intro h
    simp only [credentialTuple, Prod.mk.injEq] at h
    obtain ⟨e1, e2, e3, e4, e5⟩ := h
    simp only [GetPool.key, e1, e2, e3, e4, e5]

theorem GetPool_key_injective_witness :
    (GetPool.key sampleConn = GetPool.key sampleImapConn ↔
      credentialTuple sampleConn = credentialTuple sampleImapConn) :=
  GetPool_key_injective sampleConn sampleImapConn (by decide) (by decide) (by decide)
    (by decide) (by decide) (by decide) (by decide) (by decide)

end EmailClient
